import Mathlib

/-!
Verification of the LimeSuite loopback calibration script
(`src/SoapyLMS7/LimeSuiteCalibrate.py`) against its natural-language
specification.  The Python program is shallowly embedded below: its pure
numeric helpers become Lean functions over `ℝ` and `ℂ`, the stream-reading
loop becomes a recursion over an explicit list of read results, and the two
correction-search stages become explicit state-passing folds whose tone-level
measurements are abstracted by an oracle function of the corrections applied
to the device.
-/

noncomputable section

/-! ## Calibration constants (from the source header) -/

/-- Source constant `SAMPLE_RATE = 10e6`. -/
def SAMPLE_RATE : ℝ := 10e6

/-- Source constant `TX_FREQ_DELTA = 0.7e6`. -/
def TX_FREQ_DELTA : ℝ := 0.7e6

/-- Source constant `PGA_GAIN = 0.0`. -/
def PGA_GAIN : ℝ := 0.0

/-- Source constant `MAX_SEARCH_DEPTHS = range(2, 11)`, the list `[2, ..., 10]`. -/
def MAX_SEARCH_DEPTHS : List ℕ := List.range' 2 9

/-- Source constant `NUM_STEPS_PER_ITER = 3`. -/
def NUM_STEPS_PER_ITER : ℕ := 3

/-- Source constant `SAMPS_PER_CAPTURE = 1024*8`. -/
def SAMPS_PER_CAPTURE : ℕ := 1024 * 8

/-! ## Numeric helpers used by the source -/

/-- Embedding of `np.linspace(lo, hi, num)`: `num` evenly spaced points from
`lo` to `hi` inclusive, point `i` being `lo + (hi - lo) * i / (num - 1)`.
For `num = 1` real division by zero yields `[lo]`, matching numpy. -/
def linspace (lo hi : ℝ) (num : ℕ) : List ℝ :=
  (List.range num).map fun (i : ℕ) => lo + (hi - lo) * (i : ℝ) / ((num : ℝ) - 1)

/-- Embedding of `cmath.rect(r, θ) = r * (cos θ + i sin θ)`. -/
def rect (r θ : ℝ) : ℂ := ⟨r * Real.cos θ, r * Real.sin θ⟩

/-! ## Test-point generation (source `GenerateTestPoints`) -/

/-- Embedding of `GenerateTestPoints(depth)`: builds the 3×3 grid of DC deltas
and the 3×3 grid of IQ deltas at the given depth and pairs them positionally
with `zip`, exactly as the source does. -/
def GenerateTestPoints (depth : ℕ) : List (ℂ × ℂ) :=
  let scale : ℝ := 1.0 / 2 ^ depth
  let phaseMax : ℝ := (Real.pi / 2) * scale
  let gainMax : ℝ := 1.0 * scale
  let offMax : ℝ := 1.0 * scale
  let dcPoints : List ℂ :=
    (linspace (-offMax) offMax NUM_STEPS_PER_ITER).flatMap fun dcI =>
      (linspace (-offMax) offMax NUM_STEPS_PER_ITER).map fun dcQ => ⟨dcI, dcQ⟩
  let iqPoints : List ℂ :=
    (linspace (-phaseMax) phaseMax NUM_STEPS_PER_ITER).flatMap fun phase =>
      (linspace (-gainMax) gainMax NUM_STEPS_PER_ITER).map fun gain =>
        rect ((2 : ℝ) ^ gain) phase
  dcPoints.zip iqPoints

/-! ## Tone-level measurement (source `measureToneLevel`) -/

/-- The shifted sequence built inside `measureToneLevel`: the samples
multiplied elementwise by `np.exp(1j*np.linspace(0, samps.size*step, samps.size))`
where `step = -2*pi*freq/rate`. -/
def toneShifted (samps : List ℂ) (freq rate : ℝ) : List ℂ :=
  (samps.zip
      (linspace 0 (samps.length * (-2 * Real.pi * freq / rate)) samps.length)).map
    fun p => p.1 * Complex.exp (Complex.I * p.2)

/-- Embedding of `measureToneLevel(samps, freq, rate)`:
`20*log10(max(1e-20, abs(mean(shifted))))` with `mean = sum / size`. -/
def measureToneLevel (samps : List ℂ) (freq rate : ℝ) : ℝ :=
  20 * Real.logb 10
    (max 1e-20 (Complex.abs ((toneShifted samps freq rate).sum / (samps.length : ℂ))))

/-- Modelled from the spec wording of claim C3 only (not from the source):
multiplies sample `n` by `exp(-2*pi*i*freq*n/rate)` and then proceeds as the
source does.  Used to compare the claimed ramp against the source's ramp. -/
def measureToneLevelSpec (samps : List ℂ) (freq rate : ℝ) : ℝ :=
  let shifted := (samps.zip (List.range samps.length)).map
    fun p => p.1 * Complex.exp (Complex.I *
      ((-2 * Real.pi * freq * (p.2 : ℝ) / rate : ℝ) : ℂ))
  20 * Real.logb 10
    (max 1e-20 (Complex.abs (shifted.sum / (samps.length : ℂ))))

/-! ## Sample acquisition (source `readSamps`) -/

/-- One result of a `limeSDR.readStream` call: the status `ret` and the data
the device deposits for each of the two channels on this read. -/
structure ReadResult where
  ret : ℤ
  chunk0 : List ℂ
  chunk1 : List ℂ

/-- Outcome of the acquisition loop: a two-channel sample block, a raised
error carrying the negative status, or an exhausted stream (the real loop
would block forever waiting for more data). -/
inductive ReadOutcome where
  | ok : List ℂ → List ℂ → ReadOutcome
  | err : ℤ → ReadOutcome
  | blocked : ReadOutcome

/-- The `while b0.size:` loop of `readSamps`: issue reads until `remaining`
samples have been collected, raising on a negative status.  Each recursive
step consumes one element of the read stream. -/
def readSampsAux : List ReadResult → ℕ → ReadOutcome
  | _, 0 => .ok [] []
  | [], _ + 1 => .blocked
  | r :: rs, m + 1 =>
    if r.ret < 0 then .err r.ret
    else
      let k := min r.ret.toNat (m + 1)
      match readSampsAux rs (m + 1 - k) with
      | .ok s0 s1 => .ok (r.chunk0.take k ++ s0) (r.chunk1.take k ++ s1)
      | o => o

/-- The DC removal `rxSamples[ch] -= np.mean(rxSamples[ch])`. -/
def removeDC (xs : List ℂ) : List ℂ :=
  xs.map fun x => x - xs.sum / (xs.length : ℂ)

/-- Embedding of `readSamps`: run the collection loop, then subtract each
channel's mean. -/
def readSamps (reads : List ReadResult) (numSamps : ℕ) : ReadOutcome :=
  match readSampsAux reads numSamps with
  | .ok s0 s1 => .ok (removeDC s0) (removeDC s1)
  | o => o

/-! ## Correction composition (source `CalibrateAtFreq`, search loops) -/

/-- The candidate IQ correction built at lines 206-208 and 236-238 of the
source: `cmath.rect(abs(pt)*abs(best), phase(pt)+phase(best))`. -/
def composeIqCorr (pt best : ℂ) : ℂ :=
  rect (Complex.abs pt * Complex.abs best) (Complex.arg pt + Complex.arg best)

/-- The per-component clamp `max(min(x, 1.0), -1.0)` used for Tx DC. -/
def clamp (x : ℝ) : ℝ := max (min x 1.0) (-1.0)

/-- The candidate Tx DC correction built at lines 239-241 of the source:
componentwise clamped sum of the depth-start best and the DC delta. -/
def composeDcCorr (best dcPoint : ℂ) : ℂ :=
  ⟨clamp (best.re + dcPoint.re), clamp (best.im + dcPoint.im)⟩

/-! ## Rx gain adjustment stage (source lines 189-195) -/

/-- Embedding of the gain-adjustment stage: for each channel measure the
reference tone once, form `deltadB = -10 - lvldB`, and produce the single
corrective PGA gain `min(19, PGA_GAIN + deltadB)` for that channel. -/
def rxGainAdjust (samps0 samps1 : List ℂ) : ℝ × ℝ :=
  let lvl0 := measureToneLevel samps0 TX_FREQ_DELTA SAMPLE_RATE
  let delta0 := -10 - lvl0
  let lvl1 := measureToneLevel samps1 TX_FREQ_DELTA SAMPLE_RATE
  let delta1 := -10 - lvl1
  (min 19 (PGA_GAIN + delta0), min 19 (PGA_GAIN + delta1))

/-! ## Rx IQ search stage (source lines 198-216)

The tone levels measured after applying candidate corrections are abstracted
by an oracle: a function from the pair of corrections currently applied to
the device to the pair of measured levels. -/

/-- Search state of the Rx IQ stage: per-channel best correction and best
level (`bestRxIqCorrs`, `bestRxIqLevels`), plus a log of every correction
pair applied to the device. -/
structure RxSearchState where
  corr0 : ℂ
  corr1 : ℂ
  lvl0 : ℝ
  lvl1 : ℝ
  applied : List (ℂ × ℂ)

/-- Initial Rx search state: `bestRxIqCorrs = [1.0]*2`, `bestRxIqLevels = [1.0]*2`. -/
def rxInitState : RxSearchState := ⟨1, 1, 1, 1, []⟩

/-- One iteration of the inner test-point loop of the Rx IQ search: compose
the candidate with the depth-start snapshot `iter0`/`iter1`, apply it
(logged), measure, and keep it per channel when strictly better. -/
def rxStep (oracle : ℂ → ℂ → ℝ × ℝ) (iter0 iter1 : ℂ) (st : RxSearchState)
    (iqPoint : ℂ) : RxSearchState :=
  let new0 := composeIqCorr iqPoint iter0
  let new1 := composeIqCorr iqPoint iter1
  let lvls := oracle new0 new1
  ⟨if lvls.1 < st.lvl0 then new0 else st.corr0,
   if lvls.2 < st.lvl1 then new1 else st.corr1,
   if lvls.1 < st.lvl0 then lvls.1 else st.lvl0,
   if lvls.2 < st.lvl1 then lvls.2 else st.lvl1,
   st.applied ++ [(new0, new1)]⟩

/-- One depth of the Rx IQ search: snapshot the best corrections
(`bestRxIqCorrsIter = copy.copy(bestRxIqCorrs)`) and fold the test points. -/
def rxRunDepth (oracle : ℂ → ℂ → ℝ × ℝ) (st : RxSearchState) (depth : ℕ) :
    RxSearchState :=
  (GenerateTestPoints depth).foldl
    (fun s pq => rxStep oracle st.corr0 st.corr1 s pq.2) st

/-- The whole Rx IQ search stage: fold `rxRunDepth` over `MAX_SEARCH_DEPTHS`. -/
def rxRunStage (oracle : ℂ → ℂ → ℝ × ℝ) (st : RxSearchState) : RxSearchState :=
  MAX_SEARCH_DEPTHS.foldl (rxRunDepth oracle) st

/-! ## Tx IQ and DC search stage (source lines 225-255) -/

/-- Search state of the joint Tx IQ / Tx DC stage: per-channel best IQ
correction and level, best DC correction and level, and the log of applied
corrections `((iq0, iq1), (dc0, dc1))`. -/
structure TxSearchState where
  iqCorr0 : ℂ
  iqCorr1 : ℂ
  dcCorr0 : ℂ
  dcCorr1 : ℂ
  iqLvl0 : ℝ
  iqLvl1 : ℝ
  dcLvl0 : ℝ
  dcLvl1 : ℝ
  applied : List ((ℂ × ℂ) × (ℂ × ℂ))

/-- Initial Tx search state: IQ corrections `1.0`, DC corrections `0.0`, all
best levels `1.0`. -/
def txInitState : TxSearchState := ⟨1, 1, 0, 0, 1, 1, 1, 1, []⟩

/-- One iteration of the inner test-point loop of the Tx search: compose the
IQ candidate and the clamped DC candidate with the depth-start snapshots,
apply them (logged), measure the two target tones per channel, and update
the two independent bests per channel on strict improvement. -/
def txStep (oracle : ℂ → ℂ → ℂ → ℂ → (ℝ × ℝ) × (ℝ × ℝ))
    (iIq0 iIq1 iDc0 iDc1 : ℂ) (st : TxSearchState) (pq : ℂ × ℂ) : TxSearchState :=
  let newIq0 := composeIqCorr pq.2 iIq0
  let newIq1 := composeIqCorr pq.2 iIq1
  let newDc0 := composeDcCorr iDc0 pq.1
  let newDc1 := composeDcCorr iDc1 pq.1
  let lvls := oracle newIq0 newIq1 newDc0 newDc1
  ⟨if lvls.1.1 < st.iqLvl0 then newIq0 else st.iqCorr0,
   if lvls.1.2 < st.iqLvl1 then newIq1 else st.iqCorr1,
   if lvls.2.1 < st.dcLvl0 then newDc0 else st.dcCorr0,
   if lvls.2.2 < st.dcLvl1 then newDc1 else st.dcCorr1,
   if lvls.1.1 < st.iqLvl0 then lvls.1.1 else st.iqLvl0,
   if lvls.1.2 < st.iqLvl1 then lvls.1.2 else st.iqLvl1,
   if lvls.2.1 < st.dcLvl0 then lvls.2.1 else st.dcLvl0,
   if lvls.2.2 < st.dcLvl1 then lvls.2.2 else st.dcLvl1,
   st.applied ++ [((newIq0, newIq1), (newDc0, newDc1))]⟩

/-- One depth of the Tx search: snapshot both best-correction lists
(`bestTxIqCorrsIter`, `bestTxDcCorrsIter`) and fold the test points. -/
def txRunDepth (oracle : ℂ → ℂ → ℂ → ℂ → (ℝ × ℝ) × (ℝ × ℝ))
    (st : TxSearchState) (depth : ℕ) : TxSearchState :=
  (GenerateTestPoints depth).foldl
    (fun s pq => txStep oracle st.iqCorr0 st.iqCorr1 st.dcCorr0 st.dcCorr1 s pq) st

/-- The whole Tx search stage: fold `txRunDepth` over `MAX_SEARCH_DEPTHS`. -/
def txRunStage (oracle : ℂ → ℂ → ℂ → ℂ → (ℝ × ℝ) × (ℝ × ℝ))
    (st : TxSearchState) : TxSearchState :=
  MAX_SEARCH_DEPTHS.foldl (txRunDepth oracle) st


/-! ## Basic facts about `rect` (polar construction) -/

lemma rect_eq (r θ : ℝ) : rect r θ = (r : ℂ) * Complex.exp (θ * Complex.I) := by
  rw [Complex.exp_mul_I]
  apply Complex.ext <;>
    simp [rect, Complex.cos_ofReal_re, Complex.sin_ofReal_re]

lemma rect_abs (r θ : ℝ) (hr : 0 ≤ r) : Complex.abs (rect r θ) = r := by
  rw [rect_eq, map_mul, Complex.abs_exp_ofReal_mul_I, Complex.abs_ofReal,
    abs_of_nonneg hr, mul_one]

lemma rect_arg (r θ : ℝ) (hr : 0 < r) (hθ : θ ∈ Set.Ioc (-Real.pi) Real.pi) :
    Complex.arg (rect r θ) = θ := by
  rw [rect_eq, Complex.exp_mul_I]
  exact Complex.arg_mul_cos_add_sin_mul_I hr hθ

/-! ## The test-point grid, fully evaluated -/

/-- The grid half-width `offMax = gainMax = 2 ^ (-depth)` of a depth. -/
def gridOff (d : ℕ) : ℝ := 1 / 2 ^ d

/-- The phase half-width `phaseMax = (π/2) * 2 ^ (-depth)` of a depth. -/
def gridPhase (d : ℕ) : ℝ := Real.pi / 2 * (1 / 2 ^ d)

lemma linspace_symm_three (x : ℝ) : linspace (-x) x 3 = [-x, 0, x] := by
  simp only [linspace, show List.range 3 = [0, 1, 2] from rfl, List.map_cons,
    List.map_nil]
  norm_num

lemma generateTestPoints_eq (d : ℕ) :
    GenerateTestPoints d =
      [(⟨-gridOff d, -gridOff d⟩, rect ((2:ℝ) ^ (-gridOff d)) (-gridPhase d)),
       (⟨-gridOff d, 0⟩, rect ((2:ℝ) ^ (0:ℝ)) (-gridPhase d)),
       (⟨-gridOff d, gridOff d⟩, rect ((2:ℝ) ^ gridOff d) (-gridPhase d)),
       (⟨0, -gridOff d⟩, rect ((2:ℝ) ^ (-gridOff d)) 0),
       (⟨0, 0⟩, rect ((2:ℝ) ^ (0:ℝ)) 0),
       (⟨0, gridOff d⟩, rect ((2:ℝ) ^ gridOff d) 0),
       (⟨gridOff d, -gridOff d⟩, rect ((2:ℝ) ^ (-gridOff d)) (gridPhase d)),
       (⟨gridOff d, 0⟩, rect ((2:ℝ) ^ (0:ℝ)) (gridPhase d)),
       (⟨gridOff d, gridOff d⟩, rect ((2:ℝ) ^ gridOff d) (gridPhase d))] := by
  have h1 : (1.0 : ℝ) * (1.0 / 2 ^ d) = gridOff d := by
    rw [gridOff]; ring
  have h2 : Real.pi / 2 * (1.0 / 2 ^ d) = gridPhase d := by
    rw [gridPhase]; norm_num
  rw [GenerateTestPoints]
  simp only [NUM_STEPS_PER_ITER, h1, h2, linspace_symm_three, List.flatMap_cons,
    List.flatMap_nil, List.map_cons, List.map_nil, List.append_nil,
    List.cons_append, List.nil_append, List.zip_cons_cons, List.zip_nil_right]

lemma gridOff_pos (d : ℕ) : 0 < gridOff d := by
  rw [gridOff]; positivity

lemma gridOff_le_one (d : ℕ) : gridOff d ≤ 1 := by
  rw [gridOff, div_le_one (by positivity)]
  exact one_le_pow₀ one_le_two

lemma gridOff_eq_rpow (d : ℕ) : gridOff d = (2:ℝ) ^ (-(d:ℝ)) := by
  rw [gridOff, Real.rpow_neg (by norm_num), Real.rpow_natCast, one_div]

lemma gridPhase_eq (d : ℕ) : gridPhase d = Real.pi / 2 * gridOff d := rfl

lemma gridPhase_nonneg (d : ℕ) : 0 ≤ gridPhase d := by
  rw [gridPhase_eq]
  have := gridOff_pos d
  have := Real.pi_pos
  positivity

lemma gridPhase_le_half_pi (d : ℕ) : gridPhase d ≤ Real.pi / 2 := by
  rw [gridPhase_eq]
  calc Real.pi / 2 * gridOff d ≤ Real.pi / 2 * 1 :=
        mul_le_mul_of_nonneg_left (gridOff_le_one d) (by positivity)
    _ = Real.pi / 2 := mul_one _

lemma gridPhase_pos (d : ℕ) : 0 < gridPhase d := by
  rw [gridPhase_eq]
  have := gridOff_pos d
  have := Real.pi_pos
  positivity

lemma gridPhase_mem (d : ℕ) : gridPhase d ∈ Set.Ioc (-Real.pi) Real.pi := by
  have hπ := Real.pi_pos
  have key := gridPhase_le_half_pi d
  have pos := gridPhase_pos d
  constructor <;> [linarith; linarith]

lemma neg_gridPhase_mem (d : ℕ) : -gridPhase d ∈ Set.Ioc (-Real.pi) Real.pi := by
  have hπ := Real.pi_pos
  have key := gridPhase_le_half_pi d
  have pos := gridPhase_pos d
  constructor <;> [linarith; linarith]

lemma zero_mem_Ioc : (0:ℝ) ∈ Set.Ioc (-Real.pi) Real.pi := by
  have hπ := Real.pi_pos
  constructor <;> [linarith; linarith]

lemma boundsAux (d : ℕ) (a b g θ : ℝ)
    (ha : |a| ≤ gridOff d) (hb : |b| ≤ gridOff d)
    (hg1 : -gridOff d ≤ g) (hg2 : g ≤ gridOff d)
    (ht1 : -gridPhase d ≤ θ) (ht2 : θ ≤ gridPhase d)
    (htIoc : θ ∈ Set.Ioc (-Real.pi) Real.pi) :
    |(⟨a, b⟩ : ℂ).re| ≤ gridOff d ∧ |(⟨a, b⟩ : ℂ).im| ≤ gridOff d ∧
    -(Real.pi / 2 * gridOff d) ≤ (rect ((2:ℝ) ^ g) θ).arg ∧
    (rect ((2:ℝ) ^ g) θ).arg ≤ Real.pi / 2 * gridOff d ∧
    (2:ℝ) ^ (-gridOff d) ≤ Complex.abs (rect ((2:ℝ) ^ g) θ) ∧
    Complex.abs (rect ((2:ℝ) ^ g) θ) ≤ (2:ℝ) ^ gridOff d := by
  have harg : (rect ((2:ℝ) ^ g) θ).arg = θ :=
    rect_arg _ _ (Real.rpow_pos_of_pos two_pos g) htIoc
  have habs : Complex.abs (rect ((2:ℝ) ^ g) θ) = (2:ℝ) ^ g :=
    rect_abs _ _ (Real.rpow_pos_of_pos two_pos g).le
  refine ⟨ha, hb, ?_, ?_, ?_, ?_⟩
  · rw [harg]; exact ht1
  · rw [harg]; exact ht2
  · rw [habs]; exact (Real.rpow_le_rpow_left_iff one_lt_two).mpr hg1
  · rw [habs]; exact (Real.rpow_le_rpow_left_iff one_lt_two).mpr hg2

/-! ## Claim C2 -/

/-- Claim C2, counterexample to the claimed count: `GenerateTestPoints 2`
yields 9 pairs, which is not `NUM_STEPS_PER_ITER = 3` but its square. -/
theorem C2_count_counterexample :
    (GenerateTestPoints 2).length = 9 ∧
    (GenerateTestPoints 2).length ≠ NUM_STEPS_PER_ITER := by
  have h : (GenerateTestPoints 2).length = 9 := by
    rw [generateTestPoints_eq]; rfl
  refine ⟨h, ?_⟩
  rw [h, NUM_STEPS_PER_ITER]
  decide

/-- Claim C2 (amended): for every depth `D ≥ 2`, `GenerateTestPoints D`
yields exactly `NUM_STEPS_PER_ITER ^ 2` paired points (9 by default), and
every pair satisfies the claimed bounds: DC component magnitudes at most
`2 ^ -D`, IQ phase within `±(π/2)·2^-D`, IQ magnitude within `2 ^ (±2^-D)`. -/
theorem C2_testpoint_count_and_bounds (d : ℕ) (hd : 2 ≤ d) :
    (GenerateTestPoints d).length = NUM_STEPS_PER_ITER ^ 2 ∧
    ∀ pq ∈ GenerateTestPoints d,
      |pq.1.re| ≤ (2:ℝ) ^ (-(d:ℝ)) ∧ |pq.1.im| ≤ (2:ℝ) ^ (-(d:ℝ)) ∧
      -(Real.pi / 2 * (2:ℝ) ^ (-(d:ℝ))) ≤ Complex.arg pq.2 ∧
      Complex.arg pq.2 ≤ Real.pi / 2 * (2:ℝ) ^ (-(d:ℝ)) ∧
      (2:ℝ) ^ (-((2:ℝ) ^ (-(d:ℝ)))) ≤ Complex.abs pq.2 ∧
      Complex.abs pq.2 ≤ (2:ℝ) ^ ((2:ℝ) ^ (-(d:ℝ))) := by
  have e1 : (2:ℝ) ^ (-(d:ℝ)) = gridOff d := (gridOff_eq_rpow d).symm
  constructor
  · rw [generateTestPoints_eq]; rfl
  · intro pq hpq
    rw [e1]
    rw [generateTestPoints_eq] at hpq
    simp only [List.mem_cons, List.not_mem_nil, or_false] at hpq
    have hg0 := gridOff_pos d
    have hp0 := gridPhase_nonneg d
    rcases hpq with rfl | rfl | rfl | rfl | rfl | rfl | rfl | rfl | rfl <;>
      exact boundsAux d _ _ _ _
        (by rw [abs_le]; constructor <;> linarith)
        (by rw [abs_le]; constructor <;> linarith)
        (by linarith) (by linarith) (by linarith) (by linarith)
        (by first
          | exact neg_gridPhase_mem d
          | exact zero_mem_Ioc
          | exact gridPhase_mem d)

/-- Claim C2, witness: the amended statement instantiated at depth 2. -/
theorem C2_witness :
    2 ≤ 2 ∧
    ((GenerateTestPoints 2).length = NUM_STEPS_PER_ITER ^ 2 ∧
     ∀ pq ∈ GenerateTestPoints 2,
       |pq.1.re| ≤ (2:ℝ) ^ (-((2:ℕ):ℝ)) ∧ |pq.1.im| ≤ (2:ℝ) ^ (-((2:ℕ):ℝ)) ∧
       -(Real.pi / 2 * (2:ℝ) ^ (-((2:ℕ):ℝ))) ≤ Complex.arg pq.2 ∧
       Complex.arg pq.2 ≤ Real.pi / 2 * (2:ℝ) ^ (-((2:ℕ):ℝ)) ∧
       (2:ℝ) ^ (-((2:ℝ) ^ (-((2:ℕ):ℝ)))) ≤ Complex.abs pq.2 ∧
       Complex.abs pq.2 ≤ (2:ℝ) ^ ((2:ℝ) ^ (-((2:ℕ):ℝ)))) :=
  ⟨by decide, C2_testpoint_count_and_bounds 2 (by decide)⟩

/-! ## Claim C10 -/

/-- Claim C10: for every depth `D ≥ 2` the identity pair (DC delta `0`, IQ
delta `1`) is yielded by `GenerateTestPoints D`, at the middle index 4. -/
theorem C10_identity_pair (d : ℕ) (hd : 2 ≤ d) :
    (GenerateTestPoints d).get? 4 = some (0, 1) ∧
    ((0 : ℂ), (1 : ℂ)) ∈ GenerateTestPoints d := by
  have h1 : (⟨0, 0⟩ : ℂ) = 0 := by apply Complex.ext <;> simp
  have h2 : rect ((2:ℝ) ^ (0:ℝ)) 0 = 1 := by
    rw [Real.rpow_zero]
    apply Complex.ext <;> simp [rect]
  have hget : (GenerateTestPoints d).get? 4 = some (0, 1) := by
    rw [generateTestPoints_eq]
    show some _ = _
    rw [h1, h2]
  exact ⟨hget, List.get?_mem hget⟩

/-- Claim C10, witness: the identity pair at depth 2. -/
theorem C10_witness :
    2 ≤ 2 ∧
    ((GenerateTestPoints 2).get? 4 = some (0, 1) ∧
     ((0 : ℂ), (1 : ℂ)) ∈ GenerateTestPoints 2) :=
  ⟨by decide, C10_identity_pair 2 (by decide)⟩

/-! ## Claim C6 -/

/-- Claim C6: composing two corrections through magnitude product and phase
sum, as `composeIqCorr` does, is exactly complex multiplication. -/
theorem C6_compose_eq_mul (a b : ℂ) : composeIqCorr a b = a * b := by
  rw [composeIqCorr, rect_eq, Complex.ofReal_mul, Complex.ofReal_add, add_mul,
    Complex.exp_add]
  calc (Complex.abs a : ℂ) * Complex.abs b *
      (Complex.exp (Complex.arg a * Complex.I) * Complex.exp (Complex.arg b * Complex.I))
      = ((Complex.abs a : ℂ) * Complex.exp (Complex.arg a * Complex.I)) *
        ((Complex.abs b : ℂ) * Complex.exp (Complex.arg b * Complex.I)) := by ring
    _ = a * b := by rw [Complex.abs_mul_exp_arg_mul_I, Complex.abs_mul_exp_arg_mul_I]

/-! ## Claim C7 -/

lemma neg_one_le_clamp (x : ℝ) : -1 ≤ clamp x := by
  have e : clamp x = max (min x 1) (-1) := by norm_num [clamp]
  rw [e]
  exact le_max_right _ _

lemma clamp_le_one (x : ℝ) : clamp x ≤ 1 := by
  have e : clamp x = max (min x 1) (-1) := by norm_num [clamp]
  rw [e]
  exact max_le (min_le_right _ _) (by norm_num)

lemma clamp_idem (x : ℝ) : clamp (clamp x) = clamp x := by
  have e : clamp (clamp x) = max (min (clamp x) 1) (-1) := by norm_num [clamp]
  rw [e, min_eq_left (clamp_le_one x), max_eq_left (neg_one_le_clamp x)]

/-- Claim C7: the DC clamp maps every real into `[-1, 1]`, is idempotent,
and consequently every composed Tx DC candidate has both components in
`[-1, 1]`. -/
theorem C7_clamp_properties :
    (∀ x : ℝ, -1 ≤ clamp x ∧ clamp x ≤ 1 ∧ clamp (clamp x) = clamp x) ∧
    (∀ best dcPoint : ℂ,
      -1 ≤ (composeDcCorr best dcPoint).re ∧ (composeDcCorr best dcPoint).re ≤ 1 ∧
      -1 ≤ (composeDcCorr best dcPoint).im ∧ (composeDcCorr best dcPoint).im ≤ 1) := by
  refine ⟨fun x => ⟨neg_one_le_clamp x, clamp_le_one x, clamp_idem x⟩,
    fun best dcPoint => ⟨neg_one_le_clamp _, clamp_le_one _,
      neg_one_le_clamp _, clamp_le_one _⟩⟩

/-! ## Claim C8 -/

/-- Claim C8: the Rx gain adjustment computes, per channel, exactly one
corrective gain `min(19, PGA_GAIN + (-10 - lvl))` from a single tone-level
measurement; the applied gain never exceeds 19 and otherwise equals the
exact one-shot correction toward the -10 dBFS target. -/
theorem C8_rx_gain_one_shot (samps0 samps1 : List ℂ) :
    (rxGainAdjust samps0 samps1).1 =
      min 19 (PGA_GAIN + (-10 - measureToneLevel samps0 TX_FREQ_DELTA SAMPLE_RATE)) ∧
    (rxGainAdjust samps0 samps1).2 =
      min 19 (PGA_GAIN + (-10 - measureToneLevel samps1 TX_FREQ_DELTA SAMPLE_RATE)) ∧
    (rxGainAdjust samps0 samps1).1 ≤ 19 ∧
    (rxGainAdjust samps0 samps1).2 ≤ 19 ∧
    ((rxGainAdjust samps0 samps1).1 = 19 ∨
      (rxGainAdjust samps0 samps1).1 =
        PGA_GAIN + (-10 - measureToneLevel samps0 TX_FREQ_DELTA SAMPLE_RATE)) ∧
    ((rxGainAdjust samps0 samps1).2 = 19 ∨
      (rxGainAdjust samps0 samps1).2 =
        PGA_GAIN + (-10 - measureToneLevel samps1 TX_FREQ_DELTA SAMPLE_RATE)) :=
  ⟨rfl, rfl, min_le_left _ _, min_le_left _ _, min_choice _ _, min_choice _ _⟩


/-! ## Claim C1: candidates compose with the depth-start snapshot -/

lemma rxFold_applied (o : ℂ → ℂ → ℝ × ℝ) (i0 i1 : ℂ) (pts : List (ℂ × ℂ)) :
    ∀ st : RxSearchState,
      (pts.foldl (fun s pq => rxStep o i0 i1 s pq.2) st).applied =
        st.applied ++
          pts.map fun pq => (composeIqCorr pq.2 i0, composeIqCorr pq.2 i1) := by
  induction pts with
  | nil => intro st; simp
  | cons p ps ih =>
    intro st
    simp only [List.foldl_cons, List.map_cons]
    rw [ih]
    simp [rxStep]

lemma txFold_applied (o : ℂ → ℂ → ℂ → ℂ → (ℝ × ℝ) × (ℝ × ℝ))
    (iIq0 iIq1 iDc0 iDc1 : ℂ) (pts : List (ℂ × ℂ)) :
    ∀ st : TxSearchState,
      (pts.foldl (fun s pq => txStep o iIq0 iIq1 iDc0 iDc1 s pq) st).applied =
        st.applied ++
          pts.map fun pq =>
            ((composeIqCorr pq.2 iIq0, composeIqCorr pq.2 iIq1),
             (composeDcCorr iDc0 pq.1, composeDcCorr iDc1 pq.1)) := by
  induction pts with
  | nil => intro st; simp
  | cons p ps ih =>
    intro st
    simp only [List.foldl_cons, List.map_cons]
    rw [ih]
    simp [txStep]

/-- Claim C1: in each search stage and at every depth, every correction
applied to the device during that depth is the corresponding test point
composed with the per-channel best as it was when the depth started
(`st.corr0` etc. at entry to `rxRunDepth`/`txRunDepth`); the applied-log of a
depth is a pure map of the depth-start snapshot, unaffected by mid-depth
updates of the running best. -/
theorem C1_candidates_use_depth_start_best :
    (∀ (oracle : ℂ → ℂ → ℝ × ℝ) (st : RxSearchState) (depth : ℕ),
      (rxRunDepth oracle st depth).applied =
        st.applied ++
          (GenerateTestPoints depth).map
            (fun pq => (composeIqCorr pq.2 st.corr0, composeIqCorr pq.2 st.corr1))) ∧
    (∀ (oracle : ℂ → ℂ → ℂ → ℂ → (ℝ × ℝ) × (ℝ × ℝ)) (st : TxSearchState) (depth : ℕ),
      (txRunDepth oracle st depth).applied =
        st.applied ++
          (GenerateTestPoints depth).map
            (fun pq =>
              ((composeIqCorr pq.2 st.iqCorr0, composeIqCorr pq.2 st.iqCorr1),
               (composeDcCorr st.dcCorr0 pq.1, composeDcCorr st.dcCorr1 pq.1)))) :=
  ⟨fun oracle st depth => rxFold_applied oracle st.corr0 st.corr1 _ st,
   fun oracle st depth =>
     txFold_applied oracle st.iqCorr0 st.iqCorr1 st.dcCorr0 st.dcCorr1 _ st⟩

/-! ## Claim C4: strict-improvement updates and monotone best levels -/

lemma rxStep_lvls_le (o : ℂ → ℂ → ℝ × ℝ) (i0 i1 : ℂ) (st : RxSearchState)
    (p : ℂ) :
    (rxStep o i0 i1 st p).lvl0 ≤ st.lvl0 ∧ (rxStep o i0 i1 st p).lvl1 ≤ st.lvl1 := by
  simp only [rxStep]
  constructor <;> (split_ifs with h; exacts [h.le, le_rfl])

lemma rxFold_lvls_le (o : ℂ → ℂ → ℝ × ℝ) (i0 i1 : ℂ) (pts : List (ℂ × ℂ)) :
    ∀ st : RxSearchState,
      (pts.foldl (fun s pq => rxStep o i0 i1 s pq.2) st).lvl0 ≤ st.lvl0 ∧
      (pts.foldl (fun s pq => rxStep o i0 i1 s pq.2) st).lvl1 ≤ st.lvl1 := by
  induction pts with
  | nil => intro st; exact ⟨le_rfl, le_rfl⟩
  | cons p ps ih =>
    intro st
    simp only [List.foldl_cons]
    exact ⟨(ih _).1.trans (rxStep_lvls_le o i0 i1 st p.2).1,
           (ih _).2.trans (rxStep_lvls_le o i0 i1 st p.2).2⟩

lemma rxRunDepth_lvls_le (o : ℂ → ℂ → ℝ × ℝ) (st : RxSearchState) (d : ℕ) :
    (rxRunDepth o st d).lvl0 ≤ st.lvl0 ∧ (rxRunDepth o st d).lvl1 ≤ st.lvl1 :=
  rxFold_lvls_le o st.corr0 st.corr1 _ st

lemma rxStageFold_lvls_le (o : ℂ → ℂ → ℝ × ℝ) (ds : List ℕ) :
    ∀ st : RxSearchState,
      (ds.foldl (rxRunDepth o) st).lvl0 ≤ st.lvl0 ∧
      (ds.foldl (rxRunDepth o) st).lvl1 ≤ st.lvl1 := by
  induction ds with
  | nil => intro st; exact ⟨le_rfl, le_rfl⟩
  | cons d ds ih =>
    intro st
    simp only [List.foldl_cons]
    exact ⟨(ih _).1.trans (rxRunDepth_lvls_le o st d).1,
           (ih _).2.trans (rxRunDepth_lvls_le o st d).2⟩

lemma txStep_lvls_le (o : ℂ → ℂ → ℂ → ℂ → (ℝ × ℝ) × (ℝ × ℝ))
    (i0 i1 i2 i3 : ℂ) (st : TxSearchState) (pq : ℂ × ℂ) :
    (txStep o i0 i1 i2 i3 st pq).iqLvl0 ≤ st.iqLvl0 ∧
    (txStep o i0 i1 i2 i3 st pq).iqLvl1 ≤ st.iqLvl1 ∧
    (txStep o i0 i1 i2 i3 st pq).dcLvl0 ≤ st.dcLvl0 ∧
    (txStep o i0 i1 i2 i3 st pq).dcLvl1 ≤ st.dcLvl1 := by
  simp only [txStep]
  refine ⟨?_, ?_, ?_, ?_⟩ <;> (split_ifs with h; exacts [h.le, le_rfl])

lemma txFold_lvls_le (o : ℂ → ℂ → ℂ → ℂ → (ℝ × ℝ) × (ℝ × ℝ))
    (i0 i1 i2 i3 : ℂ) (pts : List (ℂ × ℂ)) :
    ∀ st : TxSearchState,
      (pts.foldl (fun s pq => txStep o i0 i1 i2 i3 s pq) st).iqLvl0 ≤ st.iqLvl0 ∧
      (pts.foldl (fun s pq => txStep o i0 i1 i2 i3 s pq) st).iqLvl1 ≤ st.iqLvl1 ∧
      (pts.foldl (fun s pq => txStep o i0 i1 i2 i3 s pq) st).dcLvl0 ≤ st.dcLvl0 ∧
      (pts.foldl (fun s pq => txStep o i0 i1 i2 i3 s pq) st).dcLvl1 ≤ st.dcLvl1 := by
  induction pts with
  | nil => intro st; exact ⟨le_rfl, le_rfl, le_rfl, le_rfl⟩
  | cons p ps ih =>
    intro st
    simp only [List.foldl_cons]
    have hs := txStep_lvls_le o i0 i1 i2 i3 st p
    exact ⟨(ih _).1.trans hs.1, (ih _).2.1.trans hs.2.1,
           (ih _).2.2.1.trans hs.2.2.1, (ih _).2.2.2.trans hs.2.2.2⟩

lemma txRunDepth_lvls_le (o : ℂ → ℂ → ℂ → ℂ → (ℝ × ℝ) × (ℝ × ℝ))
    (st : TxSearchState) (d : ℕ) :
    (txRunDepth o st d).iqLvl0 ≤ st.iqLvl0 ∧
    (txRunDepth o st d).iqLvl1 ≤ st.iqLvl1 ∧
    (txRunDepth o st d).dcLvl0 ≤ st.dcLvl0 ∧
    (txRunDepth o st d).dcLvl1 ≤ st.dcLvl1 :=
  txFold_lvls_le o st.iqCorr0 st.iqCorr1 st.dcCorr0 st.dcCorr1 _ st

lemma txStageFold_lvls_le (o : ℂ → ℂ → ℂ → ℂ → (ℝ × ℝ) × (ℝ × ℝ)) (ds : List ℕ) :
    ∀ st : TxSearchState,
      (ds.foldl (txRunDepth o) st).iqLvl0 ≤ st.iqLvl0 ∧
      (ds.foldl (txRunDepth o) st).iqLvl1 ≤ st.iqLvl1 ∧
      (ds.foldl (txRunDepth o) st).dcLvl0 ≤ st.dcLvl0 ∧
      (ds.foldl (txRunDepth o) st).dcLvl1 ≤ st.dcLvl1 := by
  induction ds with
  | nil => intro st; exact ⟨le_rfl, le_rfl, le_rfl, le_rfl⟩
  | cons d ds ih =>
    intro st
    simp only [List.foldl_cons]
    have hs := txRunDepth_lvls_le o st d
    exact ⟨(ih _).1.trans hs.1, (ih _).2.1.trans hs.2.1,
           (ih _).2.2.1.trans hs.2.2.1, (ih _).2.2.2.trans hs.2.2.2⟩

/-- Claim C4: each tracked best is updated only on a strictly lower measured
level; on an update the best level strictly decreases and the best
correction is replaced with the candidate together with it; otherwise (in
particular on ties) both are left unchanged; and across a whole stage the
recorded best levels never increase. -/
theorem C4_best_level_monotone :
    (∀ (o : ℂ → ℂ → ℝ × ℝ) (i0 i1 : ℂ) (st : RxSearchState) (p : ℂ),
      (((rxStep o i0 i1 st p).lvl0 < st.lvl0 ∧
          (rxStep o i0 i1 st p).corr0 = composeIqCorr p i0) ∨
        ((rxStep o i0 i1 st p).lvl0 = st.lvl0 ∧
          (rxStep o i0 i1 st p).corr0 = st.corr0)) ∧
      (((rxStep o i0 i1 st p).lvl1 < st.lvl1 ∧
          (rxStep o i0 i1 st p).corr1 = composeIqCorr p i1) ∨
        ((rxStep o i0 i1 st p).lvl1 = st.lvl1 ∧
          (rxStep o i0 i1 st p).corr1 = st.corr1))) ∧
    (∀ (o : ℂ → ℂ → ℂ → ℂ → (ℝ × ℝ) × (ℝ × ℝ)) (i0 i1 i2 i3 : ℂ)
        (st : TxSearchState) (pq : ℂ × ℂ),
      (((txStep o i0 i1 i2 i3 st pq).iqLvl0 < st.iqLvl0 ∧
          (txStep o i0 i1 i2 i3 st pq).iqCorr0 = composeIqCorr pq.2 i0) ∨
        ((txStep o i0 i1 i2 i3 st pq).iqLvl0 = st.iqLvl0 ∧
          (txStep o i0 i1 i2 i3 st pq).iqCorr0 = st.iqCorr0)) ∧
      (((txStep o i0 i1 i2 i3 st pq).iqLvl1 < st.iqLvl1 ∧
          (txStep o i0 i1 i2 i3 st pq).iqCorr1 = composeIqCorr pq.2 i1) ∨
        ((txStep o i0 i1 i2 i3 st pq).iqLvl1 = st.iqLvl1 ∧
          (txStep o i0 i1 i2 i3 st pq).iqCorr1 = st.iqCorr1)) ∧
      (((txStep o i0 i1 i2 i3 st pq).dcLvl0 < st.dcLvl0 ∧
          (txStep o i0 i1 i2 i3 st pq).dcCorr0 = composeDcCorr i2 pq.1) ∨
        ((txStep o i0 i1 i2 i3 st pq).dcLvl0 = st.dcLvl0 ∧
          (txStep o i0 i1 i2 i3 st pq).dcCorr0 = st.dcCorr0)) ∧
      (((txStep o i0 i1 i2 i3 st pq).dcLvl1 < st.dcLvl1 ∧
          (txStep o i0 i1 i2 i3 st pq).dcCorr1 = composeDcCorr i3 pq.1) ∨
        ((txStep o i0 i1 i2 i3 st pq).dcLvl1 = st.dcLvl1 ∧
          (txStep o i0 i1 i2 i3 st pq).dcCorr1 = st.dcCorr1))) ∧
    (∀ (o : ℂ → ℂ → ℝ × ℝ) (st : RxSearchState),
      (rxRunStage o st).lvl0 ≤ st.lvl0 ∧ (rxRunStage o st).lvl1 ≤ st.lvl1) ∧
    (∀ (o : ℂ → ℂ → ℂ → ℂ → (ℝ × ℝ) × (ℝ × ℝ)) (st : TxSearchState),
      (txRunStage o st).iqLvl0 ≤ st.iqLvl0 ∧ (txRunStage o st).iqLvl1 ≤ st.iqLvl1 ∧
      (txRunStage o st).dcLvl0 ≤ st.dcLvl0 ∧ (txRunStage o st).dcLvl1 ≤ st.dcLvl1) := by
  refine ⟨?_, ?_, ?_, ?_⟩
  · intro o i0 i1 st p
    constructor
    · by_cases h : (o (composeIqCorr p i0) (composeIqCorr p i1)).1 < st.lvl0
      · exact Or.inl (by simp [rxStep, h])
      · exact Or.inr (by simp [rxStep, h])
    · by_cases h : (o (composeIqCorr p i0) (composeIqCorr p i1)).2 < st.lvl1
      · exact Or.inl (by simp [rxStep, h])
      · exact Or.inr (by simp [rxStep, h])
  · intro o i0 i1 i2 i3 st pq
    refine ⟨?_, ?_, ?_, ?_⟩
    · by_cases h : (o (composeIqCorr pq.2 i0) (composeIqCorr pq.2 i1)
          (composeDcCorr i2 pq.1) (composeDcCorr i3 pq.1)).1.1 < st.iqLvl0
      · exact Or.inl (by simp [txStep, h])
      · exact Or.inr (by simp [txStep, h])
    · by_cases h : (o (composeIqCorr pq.2 i0) (composeIqCorr pq.2 i1)
          (composeDcCorr i2 pq.1) (composeDcCorr i3 pq.1)).1.2 < st.iqLvl1
      · exact Or.inl (by simp [txStep, h])
      · exact Or.inr (by simp [txStep, h])
    · by_cases h : (o (composeIqCorr pq.2 i0) (composeIqCorr pq.2 i1)
          (composeDcCorr i2 pq.1) (composeDcCorr i3 pq.1)).2.1 < st.dcLvl0
      · exact Or.inl (by simp [txStep, h])
      · exact Or.inr (by simp [txStep, h])
    · by_cases h : (o (composeIqCorr pq.2 i0) (composeIqCorr pq.2 i1)
          (composeDcCorr i2 pq.1) (composeDcCorr i3 pq.1)).2.2 < st.dcLvl1
      · exact Or.inl (by simp [txStep, h])
      · exact Or.inr (by simp [txStep, h])
  · intro o st
    exact rxStageFold_lvls_le o MAX_SEARCH_DEPTHS st
  · intro o st
    exact txStageFold_lvls_le o MAX_SEARCH_DEPTHS st


/-! ## Claim C9: best levels start at 1.0, so nothing is recorded unless a
measurement falls strictly below 1.0 dBFS -/

lemma rxFold_frozen (o : ℂ → ℂ → ℝ × ℝ)
    (h : ∀ c0 c1, 1 ≤ (o c0 c1).1 ∧ 1 ≤ (o c0 c1).2)
    (i0 i1 : ℂ) (pts : List (ℂ × ℂ)) :
    ∀ st : RxSearchState, st.lvl0 = 1 → st.lvl1 = 1 →
      (pts.foldl (fun s pq => rxStep o i0 i1 s pq.2) st).corr0 = st.corr0 ∧
      (pts.foldl (fun s pq => rxStep o i0 i1 s pq.2) st).corr1 = st.corr1 ∧
      (pts.foldl (fun s pq => rxStep o i0 i1 s pq.2) st).lvl0 = 1 ∧
      (pts.foldl (fun s pq => rxStep o i0 i1 s pq.2) st).lvl1 = 1 := by
  induction pts with
  | nil => intro st h0 h1; exact ⟨rfl, rfl, h0, h1⟩
  | cons p ps ih =>
    intro st h0 h1
    have hn0 : ¬ (o (composeIqCorr p.2 i0) (composeIqCorr p.2 i1)).1 < st.lvl0 := by
      rw [h0]; exact not_lt.mpr (h _ _).1
    have hn1 : ¬ (o (composeIqCorr p.2 i0) (composeIqCorr p.2 i1)).2 < st.lvl1 := by
      rw [h1]; exact not_lt.mpr (h _ _).2
    have e0 : (rxStep o i0 i1 st p.2).corr0 = st.corr0 := by simp [rxStep, hn0]
    have e1 : (rxStep o i0 i1 st p.2).corr1 = st.corr1 := by simp [rxStep, hn1]
    have e2 : (rxStep o i0 i1 st p.2).lvl0 = 1 := by
      have e : (rxStep o i0 i1 st p.2).lvl0 = st.lvl0 := by simp [rxStep, hn0]
      rw [e, h0]
    have e3 : (rxStep o i0 i1 st p.2).lvl1 = 1 := by
      have e : (rxStep o i0 i1 st p.2).lvl1 = st.lvl1 := by simp [rxStep, hn1]
      rw [e, h1]
    simp only [List.foldl_cons]
    have hi := ih (rxStep o i0 i1 st p.2) e2 e3
    exact ⟨hi.1.trans e0, hi.2.1.trans e1, hi.2.2.1, hi.2.2.2⟩

lemma rxStage_frozen (o : ℂ → ℂ → ℝ × ℝ)
    (h : ∀ c0 c1, 1 ≤ (o c0 c1).1 ∧ 1 ≤ (o c0 c1).2) (ds : List ℕ) :
    ∀ st : RxSearchState, st.lvl0 = 1 → st.lvl1 = 1 →
      (ds.foldl (rxRunDepth o) st).corr0 = st.corr0 ∧
      (ds.foldl (rxRunDepth o) st).corr1 = st.corr1 ∧
      (ds.foldl (rxRunDepth o) st).lvl0 = 1 ∧
      (ds.foldl (rxRunDepth o) st).lvl1 = 1 := by
  induction ds with
  | nil => intro st h0 h1; exact ⟨rfl, rfl, h0, h1⟩
  | cons d ds ih =>
    intro st h0 h1
    have hd := rxFold_frozen o h st.corr0 st.corr1 (GenerateTestPoints d) st h0 h1
    simp only [List.foldl_cons]
    have hi := ih (rxRunDepth o st d) hd.2.2.1 hd.2.2.2
    exact ⟨hi.1.trans hd.1, hi.2.1.trans hd.2.1, hi.2.2.1, hi.2.2.2⟩

lemma txFold_frozen (o : ℂ → ℂ → ℂ → ℂ → (ℝ × ℝ) × (ℝ × ℝ))
    (h : ∀ c0 c1 c2 c3, 1 ≤ (o c0 c1 c2 c3).1.1 ∧ 1 ≤ (o c0 c1 c2 c3).1.2 ∧
      1 ≤ (o c0 c1 c2 c3).2.1 ∧ 1 ≤ (o c0 c1 c2 c3).2.2)
    (i0 i1 i2 i3 : ℂ) (pts : List (ℂ × ℂ)) :
    ∀ st : TxSearchState,
      st.iqLvl0 = 1 → st.iqLvl1 = 1 → st.dcLvl0 = 1 → st.dcLvl1 = 1 →
      (pts.foldl (fun s pq => txStep o i0 i1 i2 i3 s pq) st).iqCorr0 = st.iqCorr0 ∧
      (pts.foldl (fun s pq => txStep o i0 i1 i2 i3 s pq) st).iqCorr1 = st.iqCorr1 ∧
      (pts.foldl (fun s pq => txStep o i0 i1 i2 i3 s pq) st).dcCorr0 = st.dcCorr0 ∧
      (pts.foldl (fun s pq => txStep o i0 i1 i2 i3 s pq) st).dcCorr1 = st.dcCorr1 ∧
      (pts.foldl (fun s pq => txStep o i0 i1 i2 i3 s pq) st).iqLvl0 = 1 ∧
      (pts.foldl (fun s pq => txStep o i0 i1 i2 i3 s pq) st).iqLvl1 = 1 ∧
      (pts.foldl (fun s pq => txStep o i0 i1 i2 i3 s pq) st).dcLvl0 = 1 ∧
      (pts.foldl (fun s pq => txStep o i0 i1 i2 i3 s pq) st).dcLvl1 = 1 := by
  induction pts with
  | nil => intro st h0 h1 h2 h3; exact ⟨rfl, rfl, rfl, rfl, h0, h1, h2, h3⟩
  | cons p ps ih =>
    intro st h0 h1 h2 h3
    have hor := h (composeIqCorr p.2 i0) (composeIqCorr p.2 i1)
      (composeDcCorr i2 p.1) (composeDcCorr i3 p.1)
    have hn0 : ¬ (o (composeIqCorr p.2 i0) (composeIqCorr p.2 i1)
        (composeDcCorr i2 p.1) (composeDcCorr i3 p.1)).1.1 < st.iqLvl0 := by
      rw [h0]; exact not_lt.mpr hor.1
    have hn1 : ¬ (o (composeIqCorr p.2 i0) (composeIqCorr p.2 i1)
        (composeDcCorr i2 p.1) (composeDcCorr i3 p.1)).1.2 < st.iqLvl1 := by
      rw [h1]; exact not_lt.mpr hor.2.1
    have hn2 : ¬ (o (composeIqCorr p.2 i0) (composeIqCorr p.2 i1)
        (composeDcCorr i2 p.1) (composeDcCorr i3 p.1)).2.1 < st.dcLvl0 := by
      rw [h2]; exact not_lt.mpr hor.2.2.1
    have hn3 : ¬ (o (composeIqCorr p.2 i0) (composeIqCorr p.2 i1)
        (composeDcCorr i2 p.1) (composeDcCorr i3 p.1)).2.2 < st.dcLvl1 := by
      rw [h3]; exact not_lt.mpr hor.2.2.2
    have e0 : (txStep o i0 i1 i2 i3 st p).iqCorr0 = st.iqCorr0 := by
      simp [txStep, hn0]
    have e1 : (txStep o i0 i1 i2 i3 st p).iqCorr1 = st.iqCorr1 := by
      simp [txStep, hn1]
    have e2 : (txStep o i0 i1 i2 i3 st p).dcCorr0 = st.dcCorr0 := by
      simp [txStep, hn2]
    have e3 : (txStep o i0 i1 i2 i3 st p).dcCorr1 = st.dcCorr1 := by
      simp [txStep, hn3]
    have f0 : (txStep o i0 i1 i2 i3 st p).iqLvl0 = 1 := by
      have e : (txStep o i0 i1 i2 i3 st p).iqLvl0 = st.iqLvl0 := by simp [txStep, hn0]
      rw [e, h0]
    have f1 : (txStep o i0 i1 i2 i3 st p).iqLvl1 = 1 := by
      have e : (txStep o i0 i1 i2 i3 st p).iqLvl1 = st.iqLvl1 := by simp [txStep, hn1]
      rw [e, h1]
    have f2 : (txStep o i0 i1 i2 i3 st p).dcLvl0 = 1 := by
      have e : (txStep o i0 i1 i2 i3 st p).dcLvl0 = st.dcLvl0 := by simp [txStep, hn2]
      rw [e, h2]
    have f3 : (txStep o i0 i1 i2 i3 st p).dcLvl1 = 1 := by
      have e : (txStep o i0 i1 i2 i3 st p).dcLvl1 = st.dcLvl1 := by simp [txStep, hn3]
      rw [e, h3]
    simp only [List.foldl_cons]
    have hi := ih (txStep o i0 i1 i2 i3 st p) f0 f1 f2 f3
    exact ⟨hi.1.trans e0, hi.2.1.trans e1, hi.2.2.1.trans e2, hi.2.2.2.1.trans e3,
      hi.2.2.2.2.1, hi.2.2.2.2.2.1, hi.2.2.2.2.2.2.1, hi.2.2.2.2.2.2.2⟩

lemma txStage_frozen (o : ℂ → ℂ → ℂ → ℂ → (ℝ × ℝ) × (ℝ × ℝ))
    (h : ∀ c0 c1 c2 c3, 1 ≤ (o c0 c1 c2 c3).1.1 ∧ 1 ≤ (o c0 c1 c2 c3).1.2 ∧
      1 ≤ (o c0 c1 c2 c3).2.1 ∧ 1 ≤ (o c0 c1 c2 c3).2.2) (ds : List ℕ) :
    ∀ st : TxSearchState,
      st.iqLvl0 = 1 → st.iqLvl1 = 1 → st.dcLvl0 = 1 → st.dcLvl1 = 1 →
      (ds.foldl (txRunDepth o) st).iqCorr0 = st.iqCorr0 ∧
      (ds.foldl (txRunDepth o) st).iqCorr1 = st.iqCorr1 ∧
      (ds.foldl (txRunDepth o) st).dcCorr0 = st.dcCorr0 ∧
      (ds.foldl (txRunDepth o) st).dcCorr1 = st.dcCorr1 ∧
      (ds.foldl (txRunDepth o) st).iqLvl0 = 1 ∧
      (ds.foldl (txRunDepth o) st).iqLvl1 = 1 ∧
      (ds.foldl (txRunDepth o) st).dcLvl0 = 1 ∧
      (ds.foldl (txRunDepth o) st).dcLvl1 = 1 := by
  induction ds with
  | nil => intro st h0 h1 h2 h3; exact ⟨rfl, rfl, rfl, rfl, h0, h1, h2, h3⟩
  | cons d ds ih =>
    intro st h0 h1 h2 h3
    have hd := txFold_frozen o h st.iqCorr0 st.iqCorr1 st.dcCorr0 st.dcCorr1
      (GenerateTestPoints d) st h0 h1 h2 h3
    simp only [List.foldl_cons]
    have hi := ih (txRunDepth o st d) hd.2.2.2.2.1 hd.2.2.2.2.2.1
      hd.2.2.2.2.2.2.1 hd.2.2.2.2.2.2.2
    exact ⟨hi.1.trans hd.1, hi.2.1.trans hd.2.1, hi.2.2.1.trans hd.2.2.1,
      hi.2.2.2.1.trans hd.2.2.2.1, hi.2.2.2.2.1, hi.2.2.2.2.2.1,
      hi.2.2.2.2.2.2.1, hi.2.2.2.2.2.2.2⟩

/-- Claim C9: from the initial states (best levels 1.0, IQ corrections 1.0,
DC corrections 0.0), the recorded best level never rises above 1.0, and if
every measurement a stage makes is at least 1.0 dBFS then the stage ends
with the initial identity corrections and best levels still 1.0. -/
theorem C9_identity_when_no_improvement :
    (∀ o : ℂ → ℂ → ℝ × ℝ,
      (∀ c0 c1, 1 ≤ (o c0 c1).1 ∧ 1 ≤ (o c0 c1).2) →
      (rxRunStage o rxInitState).corr0 = 1 ∧ (rxRunStage o rxInitState).corr1 = 1 ∧
      (rxRunStage o rxInitState).lvl0 = 1 ∧ (rxRunStage o rxInitState).lvl1 = 1) ∧
    (∀ o : ℂ → ℂ → ℂ → ℂ → (ℝ × ℝ) × (ℝ × ℝ),
      (∀ c0 c1 c2 c3, 1 ≤ (o c0 c1 c2 c3).1.1 ∧ 1 ≤ (o c0 c1 c2 c3).1.2 ∧
        1 ≤ (o c0 c1 c2 c3).2.1 ∧ 1 ≤ (o c0 c1 c2 c3).2.2) →
      (txRunStage o txInitState).iqCorr0 = 1 ∧ (txRunStage o txInitState).iqCorr1 = 1 ∧
      (txRunStage o txInitState).dcCorr0 = 0 ∧ (txRunStage o txInitState).dcCorr1 = 0 ∧
      (txRunStage o txInitState).iqLvl0 = 1 ∧ (txRunStage o txInitState).iqLvl1 = 1 ∧
      (txRunStage o txInitState).dcLvl0 = 1 ∧ (txRunStage o txInitState).dcLvl1 = 1) ∧
    (∀ o : ℂ → ℂ → ℝ × ℝ,
      (rxRunStage o rxInitState).lvl0 ≤ 1 ∧ (rxRunStage o rxInitState).lvl1 ≤ 1) ∧
    (∀ o : ℂ → ℂ → ℂ → ℂ → (ℝ × ℝ) × (ℝ × ℝ),
      (txRunStage o txInitState).iqLvl0 ≤ 1 ∧ (txRunStage o txInitState).iqLvl1 ≤ 1 ∧
      (txRunStage o txInitState).dcLvl0 ≤ 1 ∧ (txRunStage o txInitState).dcLvl1 ≤ 1) := by
  refine ⟨?_, ?_, ?_, ?_⟩
  · intro o h
    exact rxStage_frozen o h MAX_SEARCH_DEPTHS rxInitState rfl rfl
  · intro o h
    exact txStage_frozen o h MAX_SEARCH_DEPTHS txInitState rfl rfl rfl rfl
  · intro o
    exact rxStageFold_lvls_le o MAX_SEARCH_DEPTHS rxInitState
  · intro o
    exact txStageFold_lvls_le o MAX_SEARCH_DEPTHS txInitState

/-- Claim C9, witness: an oracle measuring a constant 2.0 dBFS everywhere
leaves both stages at their initial corrections. -/
theorem C9_witness :
    ((rxRunStage (fun _ _ => ((2:ℝ), (2:ℝ))) rxInitState).corr0 = 1 ∧
     (rxRunStage (fun _ _ => ((2:ℝ), (2:ℝ))) rxInitState).corr1 = 1 ∧
     (rxRunStage (fun _ _ => ((2:ℝ), (2:ℝ))) rxInitState).lvl0 = 1 ∧
     (rxRunStage (fun _ _ => ((2:ℝ), (2:ℝ))) rxInitState).lvl1 = 1) ∧
    ((txRunStage (fun _ _ _ _ => (((2:ℝ), (2:ℝ)), ((2:ℝ), (2:ℝ)))) txInitState).iqCorr0 = 1 ∧
     (txRunStage (fun _ _ _ _ => (((2:ℝ), (2:ℝ)), ((2:ℝ), (2:ℝ)))) txInitState).iqCorr1 = 1 ∧
     (txRunStage (fun _ _ _ _ => (((2:ℝ), (2:ℝ)), ((2:ℝ), (2:ℝ)))) txInitState).dcCorr0 = 0 ∧
     (txRunStage (fun _ _ _ _ => (((2:ℝ), (2:ℝ)), ((2:ℝ), (2:ℝ)))) txInitState).dcCorr1 = 0 ∧
     (txRunStage (fun _ _ _ _ => (((2:ℝ), (2:ℝ)), ((2:ℝ), (2:ℝ)))) txInitState).iqLvl0 = 1 ∧
     (txRunStage (fun _ _ _ _ => (((2:ℝ), (2:ℝ)), ((2:ℝ), (2:ℝ)))) txInitState).iqLvl1 = 1 ∧
     (txRunStage (fun _ _ _ _ => (((2:ℝ), (2:ℝ)), ((2:ℝ), (2:ℝ)))) txInitState).dcLvl0 = 1 ∧
     (txRunStage (fun _ _ _ _ => (((2:ℝ), (2:ℝ)), ((2:ℝ), (2:ℝ)))) txInitState).dcLvl1 = 1) :=
  ⟨C9_identity_when_no_improvement.1 (fun _ _ => ((2:ℝ), (2:ℝ)))
      (fun _ _ => ⟨one_le_two, one_le_two⟩),
   C9_identity_when_no_improvement.2.1 (fun _ _ _ _ => (((2:ℝ), (2:ℝ)), ((2:ℝ), (2:ℝ))))
      (fun _ _ _ _ => ⟨one_le_two, one_le_two, one_le_two, one_le_two⟩)⟩


/-! ## Claim C5: the acquisition loop -/

lemma readSampsAux_ok_lengths :
    ∀ (reads : List ReadResult) (n : ℕ) (s0 s1 : List ℂ),
      (∀ r ∈ reads, r.ret.toNat ≤ r.chunk0.length ∧ r.ret.toNat ≤ r.chunk1.length) →
      readSampsAux reads n = .ok s0 s1 → s0.length = n ∧ s1.length = n := by
  intro reads
  induction reads with
  | nil =>
    intro n s0 s1 hfit h
    cases n with
    | zero =>
      simp only [readSampsAux, ReadOutcome.ok.injEq] at h
      rw [← h.1, ← h.2]
      exact ⟨rfl, rfl⟩
    | succ m =>
      simp only [readSampsAux] at h
      exact ReadOutcome.noConfusion h
  | cons r rs ih =>
    intro n s0 s1 hfit h
    cases n with
    | zero =>
      simp only [readSampsAux, ReadOutcome.ok.injEq] at h
      rw [← h.1, ← h.2]
      exact ⟨rfl, rfl⟩
    | succ m =>
      by_cases hneg : r.ret < 0
      · simp only [readSampsAux, if_pos hneg] at h
        exact ReadOutcome.noConfusion h
      · cases hi : readSampsAux rs (m + 1 - min r.ret.toNat (m + 1)) with
        | ok a b =>
          simp only [readSampsAux, if_neg hneg, hi, ReadOutcome.ok.injEq] at h
          have hfr := hfit r (List.mem_cons_self r rs)
          have hlen := ih (m + 1 - min r.ret.toNat (m + 1)) a b
            (fun x hx => hfit x (List.mem_cons_of_mem r hx)) hi
          constructor
          · rw [← h.1, List.length_append, List.length_take, hlen.1]
            have : min r.ret.toNat (m + 1) ≤ r.chunk0.length :=
              le_trans (min_le_left _ _) hfr.1
            omega
          · rw [← h.2, List.length_append, List.length_take, hlen.2]
            have : min r.ret.toNat (m + 1) ≤ r.chunk1.length :=
              le_trans (min_le_left _ _) hfr.2
            omega
        | err w =>
          simp only [readSampsAux, if_neg hneg, hi] at h
          exact ReadOutcome.noConfusion h
        | blocked =>
          simp only [readSampsAux, if_neg hneg, hi] at h
          exact ReadOutcome.noConfusion h

lemma readSampsAux_ok_of_enough :
    ∀ (reads : List ReadResult) (n : ℕ),
      (∀ r ∈ reads, 0 ≤ r.ret) →
      n ≤ (reads.map fun r => r.ret.toNat).sum →
      ∃ s0 s1, readSampsAux reads n = .ok s0 s1 := by
  intro reads
  induction reads with
  | nil =>
    intro n hpos htot
    simp only [List.map_nil, List.sum_nil, Nat.le_zero] at htot
    exact ⟨[], [], by rw [htot]; rfl⟩
  | cons r rs ih =>
    intro n hpos htot
    cases n with
    | zero => exact ⟨[], [], rfl⟩
    | succ m =>
      have hneg : ¬ r.ret < 0 := not_lt.mpr (hpos r (List.mem_cons_self r rs))
      simp only [List.map_cons, List.sum_cons] at htot
      have htot2 : m + 1 - min r.ret.toNat (m + 1) ≤ (rs.map fun x => x.ret.toNat).sum := by
        omega
      obtain ⟨a, b, hi⟩ := ih (m + 1 - min r.ret.toNat (m + 1))
        (fun x hx => hpos x (List.mem_cons_of_mem r hx)) htot2
      refine ⟨r.chunk0.take (min r.ret.toNat (m + 1)) ++ a,
              r.chunk1.take (min r.ret.toNat (m + 1)) ++ b, ?_⟩
      simp only [readSampsAux, if_neg hneg]
      rw [hi]

lemma readSampsAux_err :
    ∀ (reads : List ReadResult) (n : ℕ) (v : ℤ),
      readSampsAux reads n = .err v → v < 0 ∧ ∃ r ∈ reads, r.ret = v := by
  intro reads
  induction reads with
  | nil =>
    intro n v h
    cases n with
    | zero =>
      simp only [readSampsAux] at h
      exact ReadOutcome.noConfusion h
    | succ m =>
      simp only [readSampsAux] at h
      exact ReadOutcome.noConfusion h
  | cons r rs ih =>
    intro n v h
    cases n with
    | zero =>
      simp only [readSampsAux] at h
      exact ReadOutcome.noConfusion h
    | succ m =>
      by_cases hneg : r.ret < 0
      · simp only [readSampsAux, if_pos hneg, ReadOutcome.err.injEq] at h
        exact ⟨h ▸ hneg, r, List.mem_cons_self r rs, h⟩
      · cases hi : readSampsAux rs (m + 1 - min r.ret.toNat (m + 1)) with
        | ok a b =>
          simp only [readSampsAux, if_neg hneg, hi] at h
          exact ReadOutcome.noConfusion h
        | err w =>
          simp only [readSampsAux, if_neg hneg, hi, ReadOutcome.err.injEq] at h
          obtain ⟨hw, x, hx, hxv⟩ := ih _ w hi
          exact ⟨h ▸ hw, x, List.mem_cons_of_mem r hx, h ▸ hxv⟩
        | blocked =>
          simp only [readSampsAux, if_neg hneg, hi] at h
          exact ReadOutcome.noConfusion h

lemma removeDC_length (xs : List ℂ) : (removeDC xs).length = xs.length := by
  simp [removeDC]

lemma removeDC_sum (xs : List ℂ) (hx : xs.length ≠ 0) : (removeDC xs).sum = 0 := by
  have hmap : ∀ (l : List ℂ) (c : ℂ),
      (l.map fun x => x - c).sum = l.sum - (l.length : ℂ) * c := by
    intro l c
    induction l with
    | nil => simp
    | cons y ys ihy =>
      simp only [List.map_cons, List.sum_cons, ihy, List.length_cons]
      push_cast
      ring
  rw [removeDC, hmap]
  have hc : (xs.length : ℂ) ≠ 0 := by
    exact_mod_cast Nat.cast_ne_zero.mpr hx
  field_simp

lemma readSampsAux_err_of_neg :
    ∀ (pre : List ReadResult) (r : ReadResult) (rest : List ReadResult) (n : ℕ),
      (∀ x ∈ pre, 0 ≤ x.ret) → r.ret < 0 →
      (pre.map fun x => x.ret.toNat).sum < n →
      readSampsAux (pre ++ r :: rest) n = .err r.ret := by
  intro pre
  induction pre with
  | nil =>
    intro r rest n _ hneg hsum
    cases n with
    | zero => exact absurd hsum (by simp)
    | succ m =>
      simp only [List.nil_append, readSampsAux, if_pos hneg]
  | cons x xs ih =>
    intro r rest n hpos hneg hsum
    cases n with
    | zero => exact absurd hsum (by omega)
    | succ m =>
      have hx : ¬ x.ret < 0 := not_lt.mpr (hpos x (List.mem_cons_self x xs))
      simp only [List.map_cons, List.sum_cons] at hsum
      have hrec := ih r rest (m + 1 - min x.ret.toNat (m + 1))
        (fun y hy => hpos y (List.mem_cons_of_mem x hy)) hneg (by omega)
      simp only [List.cons_append, readSampsAux, if_neg hx, List.append_eq]
      rw [hrec]

/-- Claim C5: when every read has a non-negative status, chunks at least as
long as their status, and the stream supplies at least `N` samples, the
acquisition loop returns two blocks of exactly `N` samples each with zero
sum (zero mean); and whenever it raises an error, the error carries the
negative status of one of the issued reads and no sample block is
produced. -/
theorem C5_readSamps_contract (reads : List ReadResult) (N : ℕ)
    (hfit : ∀ r ∈ reads, r.ret.toNat ≤ r.chunk0.length ∧ r.ret.toNat ≤ r.chunk1.length)
    (hpos : ∀ r ∈ reads, 0 ≤ r.ret)
    (htot : N ≤ (reads.map fun r => r.ret.toNat).sum)
    (hN : 1 ≤ N) :
    (∃ s0 s1, readSamps reads N = .ok s0 s1 ∧
      s0.length = N ∧ s1.length = N ∧ s0.sum = 0 ∧ s1.sum = 0) ∧
    (∀ (reads2 : List ReadResult) (M : ℕ) (v : ℤ),
      readSamps reads2 M = .err v → v < 0 ∧ ∃ r ∈ reads2, r.ret = v) ∧
    (∀ (pre : List ReadResult) (r : ReadResult) (rest : List ReadResult) (M : ℕ),
      (∀ x ∈ pre, 0 ≤ x.ret) → r.ret < 0 →
      (pre.map fun x => x.ret.toNat).sum < M →
      readSamps (pre ++ r :: rest) M = .err r.ret) := by
  refine ⟨?_, ?_, ?_⟩
  · obtain ⟨a, b, hab⟩ := readSampsAux_ok_of_enough reads N hpos htot
    have hlen := readSampsAux_ok_lengths reads N a b hfit hab
    refine ⟨removeDC a, removeDC b, ?_, ?_, ?_, ?_, ?_⟩
    · rw [readSamps, hab]
    · rw [removeDC_length, hlen.1]
    · rw [removeDC_length, hlen.2]
    · exact removeDC_sum a (by omega)
    · exact removeDC_sum b (by omega)
  · intro reads2 M v h
    rw [readSamps] at h
    cases hi : readSampsAux reads2 M with
    | ok a b =>
      rw [hi] at h
      exact ReadOutcome.noConfusion h
    | err w =>
      rw [hi] at h
      simp only [ReadOutcome.err.injEq] at h
      exact h ▸ readSampsAux_err reads2 M w hi
    | blocked =>
      rw [hi] at h
      exact ReadOutcome.noConfusion h
  · intro pre r rest M hp hn hs
    rw [readSamps, readSampsAux_err_of_neg pre r rest M hp hn hs]

/-- Claim C5, witness: a mock stream delivering the requested 4 samples in
three chunks (2, 1, 1), matching the spec scenario. -/
theorem C5_witness :
    ∃ s0 s1,
      readSamps
        [⟨2, [1, Complex.I], [1, 1]⟩, ⟨1, [2], [0]⟩, ⟨1, [5], [7]⟩] 4 = .ok s0 s1 ∧
      s0.length = 4 ∧ s1.length = 4 ∧ s0.sum = 0 ∧ s1.sum = 0 :=
  (C5_readSamps_contract
    [⟨2, [1, Complex.I], [1, 1]⟩, ⟨1, [2], [0]⟩, ⟨1, [5], [7]⟩] 4
    (by decide) (by decide) (by decide) (by decide)).1


/-! ## Claim C3: the demodulation ramp and the dB floor -/

lemma linspace_length (lo hi : ℝ) (num : ℕ) : (linspace lo hi num).length = num := by
  rw [linspace, List.length_map, List.length_range]

lemma linspace_get?_lt (lo hi : ℝ) (num n : ℕ) (h : n < num) :
    (linspace lo hi num).get? n = some (lo + (hi - lo) * n / ((num : ℝ) - 1)) := by
  rw [linspace, List.get?_map, List.get?_range h]
  rfl

lemma toneShifted_get? (samps : List ℂ) (freq rate : ℝ) (n : ℕ) :
    (toneShifted samps freq rate).get? n =
      (samps.get? n).map fun s => s * Complex.exp (Complex.I *
        (((samps.length : ℝ) * (-2 * Real.pi * freq / rate)) * n /
          ((samps.length : ℝ) - 1))) := by
  rw [toneShifted, List.get?_map]
  by_cases h : n < samps.length
  · obtain ⟨s, hs⟩ : ∃ s, samps.get? n = some s :=
      List.get?_eq_get h ▸ ⟨samps.get ⟨n, h⟩, rfl⟩
    have hramp := linspace_get?_lt 0
      ((samps.length : ℝ) * (-2 * Real.pi * freq / rate)) samps.length n h
    have hzip : (samps.zip
        (linspace 0 ((samps.length : ℝ) * (-2 * Real.pi * freq / rate))
          samps.length)).get? n =
        some (s, 0 + ((samps.length : ℝ) * (-2 * Real.pi * freq / rate) - 0) * n /
          ((samps.length : ℝ) - 1)) :=
      (List.get?_zip_eq_some _ _ _ n).mpr ⟨hs, hramp⟩
    rw [hzip, hs]
    simp only [Option.map_some']
    congr 2
    push_cast
    ring
  · have h1 : samps.get? n = none := List.get?_eq_none.mpr (le_of_not_lt h)
    have h2 : (samps.zip
        (linspace 0 ((samps.length : ℝ) * (-2 * Real.pi * freq / rate))
          samps.length)).get? n = none := by
      apply List.get?_eq_none.mpr
      rw [List.length_zip, linspace_length, min_self]
      exact le_of_not_lt h
    rw [h1, h2]
    rfl

lemma logb_floor_value : Real.logb 10 1e-20 = -20 := by
  have e : (1e-20 : ℝ) = (10 : ℝ) ^ ((-20 : ℤ) : ℝ) := by
    rw [Real.rpow_intCast]
    norm_num
  rw [e, Real.logb_rpow (by norm_num) (by norm_num)]
  norm_num

lemma measureToneLevel_lower_bound (samps : List ℂ) (freq rate : ℝ) :
    -400 ≤ measureToneLevel samps freq rate := by
  rw [measureToneLevel]
  have hmax : (1e-20 : ℝ) ≤ max 1e-20
      (Complex.abs ((toneShifted samps freq rate).sum / (samps.length : ℂ))) :=
    le_max_left _ _
  have hlog : (-20 : ℝ) ≤ Real.logb 10 (max 1e-20
      (Complex.abs ((toneShifted samps freq rate).sum / (samps.length : ℂ)))) := by
    rw [← logb_floor_value]
    exact Real.logb_le_logb_of_le (by norm_num) (by norm_num) hmax
  linarith

/-- Claim C3 (amended): `measureToneLevel` multiplies sample `n` not by
`exp(-2πi·freq·n/rate)` but by `exp(i·(N·step)·n/(N-1))` with
`step = -2π·freq/rate` and `N` the sample count — the ramp
`np.linspace(0, N*step, N)` spaces its points by `N·step/(N-1)`, not by
`step`; the result is `20·log10(max(1e-20, |mean|))` of the shifted
sequence, hence never below -400 dB (never minus infinity). -/
theorem C3_tone_level_formula (samps : List ℂ) (freq rate : ℝ) :
    (∀ n : ℕ, (toneShifted samps freq rate).get? n =
      (samps.get? n).map fun s => s * Complex.exp (Complex.I *
        (((samps.length : ℝ) * (-2 * Real.pi * freq / rate)) * n /
          ((samps.length : ℝ) - 1)))) ∧
    measureToneLevel samps freq rate =
      20 * Real.logb 10 (max 1e-20
        (Complex.abs ((toneShifted samps freq rate).sum / (samps.length : ℂ)))) ∧
    -400 ≤ measureToneLevel samps freq rate :=
  ⟨toneShifted_get? samps freq rate, rfl, measureToneLevel_lower_bound samps freq rate⟩

lemma linspace_two (lo hi : ℝ) : linspace lo hi 2 = [lo, hi] := by
  simp only [linspace, show List.range 2 = [0, 1] from rfl, List.map_cons,
    List.map_nil]
  norm_num

lemma exp_I_neg_pi : Complex.exp (Complex.I * ((-Real.pi : ℝ) : ℂ)) = -1 := by
  have e : Complex.I * ((-Real.pi : ℝ) : ℂ) = -((Real.pi : ℂ) * Complex.I) := by
    push_cast
    ring
  rw [e, Complex.exp_neg, Complex.exp_pi_mul_I]
  norm_num

lemma exp_I_neg_half_pi :
    Complex.exp (Complex.I * ((-(Real.pi / 2) : ℝ) : ℂ)) = -Complex.I := by
  have e : Complex.I * ((-(Real.pi / 2) : ℝ) : ℂ) =
      -(((Real.pi / 2 : ℝ) : ℂ) * Complex.I) := by
    push_cast
    ring
  rw [e, Complex.exp_neg, Complex.exp_mul_I]
  rw [← Complex.ofReal_cos, ← Complex.ofReal_sin]
  rw [Real.cos_pi_div_two, Real.sin_pi_div_two]
  simp [Complex.inv_I]

lemma toneShifted_cex : toneShifted [1, 1] 1 4 = [1, -1] := by
  have hlen : ([1, 1] : List ℂ).length = 2 := rfl
  rw [toneShifted, hlen]
  have hx : ((2 : ℕ) : ℝ) * (-2 * Real.pi * 1 / 4) = -Real.pi := by
    push_cast
    ring
  rw [hx, linspace_two]
  simp only [List.zip_cons_cons, List.zip_nil_right, List.map_cons, List.map_nil]
  rw [exp_I_neg_pi]
  norm_num

lemma sqrt_two_div_two_big : (1e-20 : ℝ) < Real.sqrt 2 / 2 := by
  have h1 : (1 : ℝ) ≤ Real.sqrt 2 := by
    nlinarith [Real.sq_sqrt (by norm_num : (0:ℝ) ≤ 2), Real.sqrt_nonneg 2]
  linarith

lemma measureToneLevel_cex_value :
    measureToneLevel [1, 1] 1 4 = 20 * Real.logb 10 1e-20 := by
  rw [measureToneLevel, toneShifted_cex]
  have hsum : ([1, -1] : List ℂ).sum = 0 := by
    simp
  rw [hsum]
  norm_num

lemma spec_cex_value :
    measureToneLevelSpec [1, 1] 1 4 = 20 * Real.logb 10 (Real.sqrt 2 / 2) := by
  rw [measureToneLevelSpec]
  have hlen : ([1, 1] : List ℂ).length = 2 := rfl
  simp only [hlen, show List.range 2 = [0, 1] from rfl, List.zip_cons_cons,
    List.zip_nil_right, List.map_cons, List.map_nil]
  have h0 : (-2 * Real.pi * 1 * ((0 : ℕ) : ℝ) / 4) = 0 := by
    push_cast
    ring
  have h1 : (-2 * Real.pi * 1 * ((1 : ℕ) : ℝ) / 4) = -(Real.pi / 2) := by
    push_cast
    ring
  rw [h0, h1, exp_I_neg_half_pi]
  have hsum : ([1 * Complex.exp (Complex.I * ((0 : ℝ) : ℂ)),
      1 * -Complex.I] : List ℂ).sum = 1 - Complex.I := by
    simp [Complex.exp_zero]
    ring
  rw [hsum]
  have habs : Complex.abs ((1 - Complex.I) / ((2 : ℕ) : ℂ)) = Real.sqrt 2 / 2 := by
    rw [map_div₀]
    have h1i : (1 - Complex.I) = (⟨1, -1⟩ : ℂ) := by
      apply Complex.ext <;> simp
    rw [h1i]
    rw [show ((2 : ℕ) : ℂ) = (2 : ℂ) from by norm_num, Complex.abs_two]
    congr 1
    rw [Complex.abs_apply, Complex.normSq_mk]
    norm_num
  rw [habs]
  rw [max_eq_right sqrt_two_div_two_big.le]

/-- Claim C3, counterexample: on the two-sample input `[1, 1]` with
`freq = 1` and `rate = 4`, the source's ramp (linspace endpoint spacing)
gives a different level than the claimed per-sample `exp(-2πi·freq·n/rate)`
multiplier would. -/
theorem C3_ramp_counterexample :
    measureToneLevel [1, 1] 1 4 ≠ measureToneLevelSpec [1, 1] 1 4 := by
  rw [measureToneLevel_cex_value, spec_cex_value]
  have hlt : Real.logb 10 1e-20 < Real.logb 10 (Real.sqrt 2 / 2) :=
    Real.logb_lt_logb (by norm_num) (by norm_num) sqrt_two_div_two_big
  intro h
  have := mul_left_cancel₀ (by norm_num : (20:ℝ) ≠ 0) h
  exact absurd this (ne_of_lt hlt)

end
